import Mathlib

/-!
Verification of the script termination subsystem of rustyscript.

The subsystem lets script code request its own immediate termination with an
exit code.  The native op (src/src/ext/os/mod.rs, op_script_exit) stores a
ScriptExitRequest in the runtime OpState and, when a V8IsolateHandle is
present there, signals terminate_execution on the isolate.  The execution
driver then classifies the aborted run, surfacing a typed exit outcome.

The embedding below translates op_script_exit from the source.  The engine
interrupt semantics (V8 stopping script at the next instruction boundary
once terminate_execution is signalled), the ESM shim defining the script
visible exit function, and the driver classification are not present in the
provided sources (only their tests and callers are), so they are modelled
from the spec, as marked in the individual doc comments.
-/

/-- A structure to store the exit code in OpState when script exit is
requested.  Translated from ScriptExitRequest in src/src/ext/os/mod.rs. -/
structure ScriptExitRequest where
  code : Int
deriving Repr, DecidableEq

/-- Combined runtime state: the OpState side-state store (exitRequest slot,
presence of the stored V8IsolateHandle), the engine execution context
(terminated flag set by terminate_execution), and the observable script
world (globals, console log, a script-local loop counter). -/
structure ExecState where
  exitRequest : Option ScriptExitRequest
  hasIsolateHandle : Bool
  terminated : Bool
  globals : List String
  logOutput : List String
  counter : Nat
deriving Repr, DecidableEq

/-- One observable effect of the native exit op, used to state the order in
which op_script_exit performs its two side effects. -/
inductive ExitEffect where
  | putExitRequest (code : Int)
  | terminateSignal
deriving Repr, DecidableEq

/-- Apply one effect of the native exit op to the state. -/
def applyExitEffect (s : ExecState) : ExitEffect → ExecState
  | ExitEffect.putExitRequest c => { s with exitRequest := some { code := c } }
  | ExitEffect.terminateSignal => { s with terminated := true }

/-- The effect trace of one invocation of op_script_exit, in source order:
first state.put of the ScriptExitRequest, then, only if a V8IsolateHandle is
present in OpState, terminate_execution on the isolate.
Translated from op_script_exit in src/src/ext/os/mod.rs. -/
def op_script_exit_events (s : ExecState) (code : Int) : List ExitEffect :=
  ExitEffect.putExitRequest code ::
    (if s.hasIsolateHandle then [ExitEffect.terminateSignal] else [])

/-- Request script termination with the given exit code.  Stores the exit
request in OpState, then terminates V8 execution if an isolate handle is
present, and returns Ok.  Translated from op_script_exit in
src/src/ext/os/mod.rs. -/
def op_script_exit (code : Int) (state : ExecState) :
    Except String Unit × ExecState :=
  let state := { state with exitRequest := some { code := code } }
  let state :=
    if state.hasIsolateHandle then { state with terminated := true } else state
  (Except.ok (), state)

/-- Modelled from the spec: the init_os.js ESM entry point (not present in
the provided sources) registers the script visible exit function with the
calling convention of section 6: zero or one integer argument, default 0 if
omitted, forwarding to op_script_exit. -/
def deno_exit (arg : Option Int) (s : ExecState) :
    Except String Unit × ExecState :=
  op_script_exit (arg.getD 0) s

/-- Script statements, mirroring the constructs the test scripts in
src/src/ext/os/test.rs and src/examples/os_exit.rs use: global mutation,
console logging, a counter increment, the exit call, a thrown exception, a
counter-guarded conditional, and an unbounded while-true loop. -/
inductive Stmt where
  | setGlobal (name : String)
  | log (msg : String)
  | incCounter
  | exitCall (arg : Option Int)
  | throwErr (msg : String)
  | ifCounterGt (bound : Nat) (thenBranch : List Stmt)
  | whileTrue (body : List Stmt)
deriving Repr

/-- Result of executing a unit of script: normal completion, a thrown
script exception, or an engine abort (terminated execution). -/
inductive ExecResult where
  | ok (s : ExecState)
  | thrown (msg : String) (s : ExecState)
  | aborted (s : ExecState)
deriving Repr, DecidableEq

/-- The state carried by an execution result. -/
def ExecResult.state : ExecResult → ExecState
  | ExecResult.ok s => s
  | ExecResult.thrown _ s => s
  | ExecResult.aborted s => s

/-- Modelled from the spec: engine execution of a statement list.  The
engine observes the terminate_execution signal at every instruction
boundary (section 5: the signal is observed at the next safepoint
regardless of call depth or loop iteration count), so before each statement
and at the end of the unit the terminated flag is checked and execution
aborts if it is set.  Fuel bounds the number of interpreter steps; `none`
means the run did not finish within the given fuel. -/
def execStmts : Nat → List Stmt → ExecState → Option ExecResult
  | _, [], s =>
      some (if s.terminated then ExecResult.aborted s else ExecResult.ok s)
  | 0, _ :: _, _ => none
  | fuel + 1, stmt :: rest, s =>
    if s.terminated then some (ExecResult.aborted s)
    else
      match stmt with
      | Stmt.setGlobal name =>
          execStmts fuel rest { s with globals := name :: s.globals }
      | Stmt.log msg =>
          execStmts fuel rest { s with logOutput := msg :: s.logOutput }
      | Stmt.incCounter =>
          execStmts fuel rest { s with counter := s.counter + 1 }
      | Stmt.exitCall arg =>
          execStmts fuel rest (deno_exit arg s).2
      | Stmt.throwErr msg => some (ExecResult.thrown msg s)
      | Stmt.ifCounterGt bound thenBranch =>
          if s.counter > bound then execStmts fuel (thenBranch ++ rest) s
          else execStmts fuel rest s
      | Stmt.whileTrue body =>
          execStmts fuel (body ++ Stmt.whileTrue body :: rest) s

/-- Outcome surfaced by the execution driver to the host. -/
inductive Outcome where
  | normal
  | exitRequested (code : Int)
  | unrelatedAbort
  | ordinaryFailure (msg : String)
deriving Repr, DecidableEq

/-- Modelled from the spec: driver classification of an aborted run
(section 4.3).  The driver takes the ScriptExitRequest from the side-state
store: if present it surfaces ExitRequested with that code, otherwise an
UnrelatedAbort; in both cases runtime recovery (section 7) resets the
interrupted flag so the instance stays runnable. -/
def handleAbort (s : ExecState) : Outcome × ExecState :=
  match s.exitRequest with
  | some req =>
      (Outcome.exitRequested req.code,
        { s with exitRequest := none, terminated := false })
  | none =>
      (Outcome.unrelatedAbort,
        { s with exitRequest := none, terminated := false })

/-- Modelled from the spec: the Execution Driver (section 4.3), wrapping a
script execution entry point.  Normal completion returns the normal result,
an ordinary thrown exception passes through unchanged, and an engine abort
is classified via the side-state store. -/
def driver_run (fuel : Nat) (prog : List Stmt) (s : ExecState) :
    Option (Outcome × ExecState) :=
  match execStmts fuel prog s with
  | none => none
  | some (ExecResult.ok s1) => some (Outcome.normal, s1)
  | some (ExecResult.thrown msg s1) => some (Outcome.ordinaryFailure msg, s1)
  | some (ExecResult.aborted s1) => some (handleAbort s1)

/-- A freshly constructed runtime instance: the V8IsolateHandle is stored
in OpState at runtime construction time, no exit request is pending, the
engine is not terminated, and no script state exists yet. -/
def freshRuntime : ExecState :=
  { exitRequest := none, hasIsolateHandle := true, terminated := false,
    globals := [], logOutput := [], counter := 0 }

/-- A runtime instance is valid (reusable) when no stale exit request is
pending, the engine is not marked terminated, and the isolate handle stored
at construction is still present. -/
def runtimeValid (s : ExecState) : Prop :=
  s.exitRequest = none ∧ s.terminated = false ∧ s.hasIsolateHandle = true

/-- Whether a statement list contains no call of the exit primitive,
including inside conditional branches and loop bodies. -/
def noExitCall : List Stmt → Bool
  | [] => true
  | Stmt.exitCall _ :: _ => false
  | Stmt.ifCounterGt _ thenBranch :: rest =>
      noExitCall thenBranch && noExitCall rest
  | Stmt.whileTrue body :: rest => noExitCall body && noExitCall rest
  | _ :: rest => noExitCall rest

/-- The unbounded while-true loop of test_os_exit_in_loop: it increments a
counter and calls the exit primitive once the counter exceeds the bound. -/
def loopStmt (bound : Nat) (c : Int) : Stmt :=
  Stmt.whileTrue [Stmt.incCounter,
    Stmt.ifCounterGt bound [Stmt.exitCall (some c)]]

/-- The loop script of test_os_exit_in_loop: an unbounded while-true loop
incrementing a counter and calling the exit primitive once the counter
exceeds the bound. -/
def loopExitScript (bound : Nat) (c : Int) : List Stmt :=
  [loopStmt bound c]

/-- The state resulting from running the exit script once through the
driver, used to iterate aborted executions. -/
def afterExitRun (s : ExecState) : ExecState :=
  match driver_run 2 [Stmt.exitCall (some 1)] s with
  | some (_, s1) => s1
  | none => s

/-- The runtime state after a given number of aborted (exit requesting)
executions in sequence. -/
def iterAborts : Nat → ExecState → ExecState
  | 0, s => s
  | n + 1, s => iterAborts n (afterExitRun s)

/-- Characterization of the state after one invocation of the script exit
function: the exit request is recorded, and the engine is terminated
exactly when it already was or an isolate handle is present. -/
theorem deno_exit_state (arg : Option Int) (s : ExecState) :
    (deno_exit arg s).2 =
      { s with exitRequest := some { code := arg.getD 0 },
               terminated := s.terminated || s.hasIsolateHandle } := by
  simp only [deno_exit, op_script_exit]
  by_cases hh : s.hasIsolateHandle <;> simp [hh]

/-- The script exit function never signals an error back to script. -/
theorem deno_exit_ok (arg : Option Int) (s : ExecState) :
    (deno_exit arg s).1 = Except.ok () := by
  simp [deno_exit, op_script_exit]

/-- Once the engine is terminated, any finished run is an abort in the very
same state: no statement executes. -/
theorem execStmts_terminated (fuel : Nat) (prog : List Stmt) (s : ExecState)
    (h : s.terminated = true) (r : ExecResult)
    (hr : execStmts fuel prog s = some r) : r = ExecResult.aborted s := by
  cases prog with
  | nil =>
      simp only [execStmts, h, if_true] at hr
      exact (Option.some.injEq _ _ ▸ hr).symm
  | cons stmt rest =>
      cases fuel with
      | zero => simp [execStmts] at hr
      | succ n =>
          simp only [execStmts, h, if_true] at hr
          exact (Option.some.injEq _ _ ▸ hr).symm

/-- Fuel monotonicity: a finished run stays the same under more fuel. -/
theorem execStmts_mono (fuel : Nat) :
    ∀ (fuel' : Nat) (prog : List Stmt) (s : ExecState) (r : ExecResult),
      fuel ≤ fuel' → execStmts fuel prog s = some r →
      execStmts fuel' prog s = some r := by
  induction fuel with
  | zero =>
      intro fuel' prog s r _ h
      cases prog with
      | nil => cases fuel' <;> simpa [execStmts] using h
      | cons stmt rest => simp [execStmts] at h
  | succ n ih =>
      intro fuel' prog s r hle h
      cases prog with
      | nil => cases fuel' <;> simpa [execStmts] using h
      | cons stmt rest =>
          obtain ⟨m, rfl⟩ : ∃ m, fuel' = m + 1 := ⟨fuel' - 1, by omega⟩
          have hm : n ≤ m := by omega
          simp only [execStmts] at h ⊢
          by_cases ht : s.terminated
          · simpa [ht] using h
          · simp only [ht, if_false, Bool.false_eq_true] at h ⊢
            cases stmt with
            | setGlobal name => exact ih m _ _ r hm h
            | log msg => exact ih m _ _ r hm h
            | incCounter => exact ih m _ _ r hm h
            | exitCall arg => exact ih m _ _ r hm h
            | throwErr msg => exact h
            | ifCounterGt bound thenBranch =>
                by_cases hc : s.counter > bound <;>
                  simp only [hc, if_true, if_false] at h ⊢ <;>
                  exact ih m _ _ r hm h
            | whileTrue body => exact ih m _ _ r hm h

/-- Execution never changes whether the isolate handle is stored. -/
theorem execStmts_handle (fuel : Nat) :
    ∀ (prog : List Stmt) (s : ExecState) (r : ExecResult),
      execStmts fuel prog s = some r →
      r.state.hasIsolateHandle = s.hasIsolateHandle := by
  induction fuel with
  | zero =>
      intro prog s r h
      cases prog with
      | nil =>
          simp only [execStmts] at h
          by_cases ht : s.terminated <;> simp [ht] at h <;>
            simp [← h, ExecResult.state]
      | cons stmt rest => simp [execStmts] at h
  | succ n ih =>
      intro prog s r h
      cases prog with
      | nil =>
          simp only [execStmts] at h
          by_cases ht : s.terminated <;> simp [ht] at h <;>
            simp [← h, ExecResult.state]
      | cons stmt rest =>
          simp only [execStmts] at h
          by_cases ht : s.terminated
          · simp only [ht, if_true] at h
            simp [← (Option.some.injEq _ _ ▸ h), ExecResult.state]
          · simp only [ht, if_false, Bool.false_eq_true] at h
            cases stmt with
            | setGlobal name => simpa using ih _ _ r h
            | log msg => simpa using ih _ _ r h
            | incCounter => simpa using ih _ _ r h
            | exitCall arg =>
                have := ih _ _ r h
                rwa [deno_exit_state] at this
            | throwErr msg =>
                simp [← (Option.some.injEq _ _ ▸ h), ExecResult.state]
            | ifCounterGt bound thenBranch =>
                by_cases hc : s.counter > bound <;>
                  simp only [hc, if_true, if_false] at h <;>
                  exact ih _ _ r h
            | whileTrue body => exact ih _ _ r h

/-- noExitCall distributes over list append. -/
theorem noExitCall_append (a b : List Stmt) :
    noExitCall (a ++ b) = (noExitCall a && noExitCall b) := by
  induction a with
  | nil => simp [noExitCall]
  | cons stmt rest ih =>
      cases stmt <;> simp [noExitCall, ih, Bool.and_assoc]

/-- A run of a script containing no exit call leaves the pending exit
request slot of the side-state store exactly as it was. -/
theorem execStmts_noExit (fuel : Nat) :
    ∀ (prog : List Stmt) (s : ExecState) (r : ExecResult),
      noExitCall prog = true → execStmts fuel prog s = some r →
      r.state.exitRequest = s.exitRequest := by
  induction fuel with
  | zero =>
      intro prog s r _ h
      cases prog with
      | nil =>
          simp only [execStmts] at h
          by_cases ht : s.terminated <;> simp [ht] at h <;>
            simp [← h, ExecResult.state]
      | cons stmt rest => simp [execStmts] at h
  | succ n ih =>
      intro prog s r hne h
      cases prog with
      | nil =>
          simp only [execStmts] at h
          by_cases ht : s.terminated <;> simp [ht] at h <;>
            simp [← h, ExecResult.state]
      | cons stmt rest =>
          simp only [execStmts] at h
          by_cases ht : s.terminated
          · simp only [ht, if_true] at h
            simp [← (Option.some.injEq _ _ ▸ h), ExecResult.state]
          · simp only [ht, if_false, Bool.false_eq_true] at h
            cases stmt with
            | setGlobal name =>
                simp only [noExitCall] at hne
                simpa using ih _ _ r hne h
            | log msg =>
                simp only [noExitCall] at hne
                simpa using ih _ _ r hne h
            | incCounter =>
                simp only [noExitCall] at hne
                simpa using ih _ _ r hne h
            | exitCall arg => simp [noExitCall] at hne
            | throwErr msg =>
                simp [← (Option.some.injEq _ _ ▸ h), ExecResult.state]
            | ifCounterGt bound thenBranch =>
                simp only [noExitCall, Bool.and_eq_true] at hne
                by_cases hc : s.counter > bound
                · simp only [hc, if_true] at h
                  exact ih _ _ r (by simp [noExitCall_append, hne.1, hne.2]) h
                · simp only [hc, if_false] at h
                  exact ih _ _ r hne.2 h
            | whileTrue body =>
                simp only [noExitCall, Bool.and_eq_true] at hne
                exact ih _ _ r
                  (by simp [noExitCall_append, noExitCall, hne.1, hne.2]) h

/-- When the isolate handle is present, a run that finishes with a thrown
script exception never executed the exit primitive: the pending exit
request and the terminated flag are exactly as at the start of the run. -/
theorem execStmts_thrown_no_exit (fuel : Nat) :
    ∀ (prog : List Stmt) (s : ExecState) (msg : String) (s1 : ExecState),
      s.hasIsolateHandle = true →
      execStmts fuel prog s = some (ExecResult.thrown msg s1) →
      s1.exitRequest = s.exitRequest ∧ s1.terminated = s.terminated := by
  induction fuel with
  | zero =>
      intro prog s msg s1 _ h
      cases prog with
      | nil =>
          simp only [execStmts] at h
          by_cases ht : s.terminated <;> simp [ht] at h
      | cons stmt rest => simp [execStmts] at h
  | succ n ih =>
      intro prog s msg s1 hh h
      cases prog with
      | nil =>
          simp only [execStmts] at h
          by_cases ht : s.terminated <;> simp [ht] at h
      | cons stmt rest =>
          simp only [execStmts] at h
          by_cases ht : s.terminated
          · simp [ht] at h
          · simp only [ht, if_false, Bool.false_eq_true] at h
            rw [Bool.not_eq_true] at ht
            cases stmt with
            | setGlobal name =>
                have h5 := ih rest _ msg s1 (by simp [hh]) h
                simpa [ht] using h5
            | log msg2 =>
                have h5 := ih rest _ msg s1 (by simp [hh]) h
                simpa [ht] using h5
            | incCounter =>
                have h5 := ih rest _ msg s1 (by simp [hh]) h
                simpa [ht] using h5
            | exitCall arg =>
                have hterm : ((deno_exit arg s).2).terminated = true := by
                  rw [deno_exit_state]; simp [hh]
                have := execStmts_terminated n rest _ hterm _ h
                simp at this
            | throwErr msg2 =>
                simp only [Option.some.injEq, ExecResult.thrown.injEq] at h
                simp [← h.2]
            | ifCounterGt bound thenBranch =>
                by_cases hc : s.counter > bound
                · simp only [hc, if_true] at h
                  exact ih _ _ msg s1 hh h
                · simp only [hc, if_false] at h
                  exact ih _ _ msg s1 hh h
            | whileTrue body => exact ih _ _ msg s1 hh h

/-- Executing the exit call with the isolate handle present aborts the run
at the very next instruction boundary: no statement of the continuation
executes, and the run finishes in the state the exit op produced. -/
theorem execStmts_exit_aborts (fuel : Nat) (arg : Option Int)
    (post : List Stmt) (s : ExecState)
    (ht : s.terminated = false) (hh : s.hasIsolateHandle = true) :
    execStmts (fuel + 2) (Stmt.exitCall arg :: post) s =
      some (ExecResult.aborted (deno_exit arg s).2) := by
  have hterm : ((deno_exit arg s).2).terminated = true := by
    rw [deno_exit_state]; simp [hh]
  have h2 : execStmts (fuel + 2) (Stmt.exitCall arg :: post) s =
      execStmts (fuel + 1) post (deno_exit arg s).2 := by
    simp [execStmts, ht]
  rw [h2]
  cases post with
  | nil => simp [execStmts, hterm]
  | cons p rest => simp [execStmts, hterm]

/-- One interpreter step: unfolding a while-true loop head. -/
theorem execStmts_while_step (f : Nat) (body rest : List Stmt)
    (s : ExecState) (ht : s.terminated = false) :
    execStmts (f + 1) (Stmt.whileTrue body :: rest) s =
      execStmts f (body ++ Stmt.whileTrue body :: rest) s := by
  simp [execStmts, ht]

/-- One interpreter step: a counter increment. -/
theorem execStmts_inc_step (f : Nat) (rest : List Stmt)
    (s : ExecState) (ht : s.terminated = false) :
    execStmts (f + 1) (Stmt.incCounter :: rest) s =
      execStmts f rest { s with counter := s.counter + 1 } := by
  simp [execStmts, ht]

/-- One interpreter step: a counter-guarded conditional. -/
theorem execStmts_ifGt_step (f bound : Nat) (thn rest : List Stmt)
    (s : ExecState) (ht : s.terminated = false) :
    execStmts (f + 1) (Stmt.ifCounterGt bound thn :: rest) s =
      if s.counter > bound then execStmts f (thn ++ rest) s
      else execStmts f rest s := by
  simp [execStmts, ht]

/-- The while-true loop of the loop test aborts with the requested exit
code within 3*d + 5 interpreter steps, where d is the number of counter
increments still needed to pass the bound. -/
theorem loop_exit_aborts (bound : Nat) (c : Int) :
    ∀ (d : Nat) (s : ExecState) (rest : List Stmt),
      s.terminated = false → s.hasIsolateHandle = true →
      bound - s.counter = d →
      ∃ s1,
        execStmts (3 * d + 5) (loopStmt bound c :: rest) s =
          some (ExecResult.aborted s1) ∧
        s1.exitRequest = some { code := c } := by
  intro d
  induction d with
  | zero =>
      intro s rest ht hh hd
      have ht1 : ({ s with counter := s.counter + 1 } :
          ExecState).terminated = false := by simp [ht]
      have hh1 : ({ s with counter := s.counter + 1 } :
          ExecState).hasIsolateHandle = true := by simp [hh]
      have hgt : ({ s with counter := s.counter + 1 } :
          ExecState).counter > bound := by simp; omega
      refine ⟨(deno_exit (some c) { s with counter := s.counter + 1 }).2,
        ?_, ?_⟩
      · rw [show (3 * 0 + 5 : Nat) = 0 + 2 + 1 + 1 + 1 by norm_num,
          loopStmt, execStmts_while_step _ _ _ _ ht]
        simp only [List.cons_append, List.nil_append]
        rw [execStmts_inc_step _ _ _ ht, execStmts_ifGt_step _ _ _ _ _ ht1,
          if_pos hgt]
        simp only [List.cons_append, List.nil_append]
        exact execStmts_exit_aborts 0 (some c) _ _ ht1 hh1
      · simp [deno_exit_state]
  | succ d ih =>
      intro s rest ht hh hd
      have ht1 : ({ s with counter := s.counter + 1 } :
          ExecState).terminated = false := by simp [ht]
      have hh1 : ({ s with counter := s.counter + 1 } :
          ExecState).hasIsolateHandle = true := by simp [hh]
      have hle : ¬ ({ s with counter := s.counter + 1 } :
          ExecState).counter > bound := by simp; omega
      rw [show (3 * (d + 1) + 5 : Nat) = 3 * d + 5 + 1 + 1 + 1 by ring,
        loopStmt, execStmts_while_step _ _ _ _ ht]
      simp only [List.cons_append, List.nil_append]
      rw [execStmts_inc_step _ _ _ ht, execStmts_ifGt_step _ _ _ _ _ ht1,
        if_neg hle]
      have hd1 : bound - ({ s with counter := s.counter + 1 } :
          ExecState).counter = d := by simp; omega
      exact ih _ rest ht1 hh1 hd1

/-- One interpreter step: the exit call itself returns into the engine,
which then continues (or aborts at the next boundary). -/
theorem execStmts_exit_step (f : Nat) (arg : Option Int) (rest : List Stmt)
    (s : ExecState) (ht : s.terminated = false) :
    execStmts (f + 1) (Stmt.exitCall arg :: rest) s =
      execStmts f rest (deno_exit arg s).2 := by
  simp [execStmts, ht]

/-- One interpreter step: a global mutation. -/
theorem execStmts_set_step (f : Nat) (name : String) (rest : List Stmt)
    (s : ExecState) (ht : s.terminated = false) :
    execStmts (f + 1) (Stmt.setGlobal name :: rest) s =
      execStmts f rest { s with globals := name :: s.globals } := by
  simp [execStmts, ht]

/-- One interpreter step: a console log. -/
theorem execStmts_log_step (f : Nat) (msg : String) (rest : List Stmt)
    (s : ExecState) (ht : s.terminated = false) :
    execStmts (f + 1) (Stmt.log msg :: rest) s =
      execStmts f rest { s with logOutput := msg :: s.logOutput } := by
  simp [execStmts, ht]

/-- An exhausted statement list in a non-terminated engine completes
normally. -/
theorem execStmts_nil (fuel : Nat) (s : ExecState)
    (ht : s.terminated = false) :
    execStmts fuel [] s = some (ExecResult.ok s) := by
  cases fuel <;> simp [execStmts, ht]

/-- Any finished run of a script that begins with the exit call, in a
non-terminated engine with the isolate handle present, is an abort in
exactly the state the exit op produced. -/
theorem execStmts_exit_head (fuel : Nat) (arg : Option Int)
    (post : List Stmt) (s : ExecState) (r : ExecResult)
    (ht : s.terminated = false) (hh : s.hasIsolateHandle = true)
    (h : execStmts fuel (Stmt.exitCall arg :: post) s = some r) :
    r = ExecResult.aborted (deno_exit arg s).2 := by
  cases fuel with
  | zero => simp [execStmts] at h
  | succ f =>
      rw [execStmts_exit_step f arg post s ht] at h
      have hterm : ((deno_exit arg s).2).terminated = true := by
        rw [deno_exit_state]; simp [hh]
      exact execStmts_terminated f post _ hterm r h

/-- On a valid runtime, one whole exit-requesting execution through the
driver returns the runtime to exactly its starting state. -/
theorem afterExitRun_id (s : ExecState) (hv : runtimeValid s) :
    afterExitRun s = s := by
  obtain ⟨h1, h2, h3⟩ := hv
  cases s with
  | mk er hih term g l cnt =>
      simp only at h1 h2 h3
      subst h1; subst h2; subst h3
      simp [afterExitRun, driver_run, execStmts, deno_exit, op_script_exit,
        handleAbort]

/-- Iterating exit-requesting executions from a fresh runtime never leaves
the fresh state. -/
theorem iterAborts_fresh : ∀ k, iterAborts k freshRuntime = freshRuntime := by
  intro k
  induction k with
  | zero => rfl
  | succ n ih =>
      show iterAborts n (afterExitRun freshRuntime) = freshRuntime
      rw [afterExitRun_id freshRuntime ⟨rfl, rfl, rfl⟩]
      exact ih

/-- Claim C1: for every script that invokes the exit primitive with code n
and then contains further statements that mutate observable global state,
once the execution entry point returns an ExitRequested(n) outcome, none of
the mutations written after the exit call are observable in the runtime
global state.  Stated from an arbitrary non-terminated pre-exit state s
with the isolate handle present: whatever the post statements are, the
driver surfaces ExitRequested(n) and the final globals and console output
are exactly those of s. -/
theorem C1_post_exit_mutations_unobservable (post : List Stmt) (n : Int)
    (s : ExecState) (fuel : Nat)
    (ht : s.terminated = false) (hh : s.hasIsolateHandle = true) :
    ∃ s1, driver_run (fuel + 2) (Stmt.exitCall (some n) :: post) s =
        some (Outcome.exitRequested n, s1) ∧
      s1.globals = s.globals ∧ s1.logOutput = s.logOutput := by
  have h := execStmts_exit_aborts fuel (some n) post s ht hh
  refine ⟨(handleAbort (deno_exit (some n) s).2).2, ?_, ?_, ?_⟩
  · simp only [driver_run, h]
    simp [handleAbort, deno_exit_state]
  · simp [handleAbort, deno_exit_state]
  · simp [handleAbort, deno_exit_state]

/-- Witness for C1: the test_os_exit_terminates_script scenario with exit
code 42 and a post-exit global mutation, on a fresh runtime. -/
theorem C1_witness :
    ∃ s1, driver_run 2
        [Stmt.exitCall (some 42), Stmt.setGlobal "SHOULD_NOT_EXIST"]
        freshRuntime = some (Outcome.exitRequested 42, s1) ∧
      s1.globals = freshRuntime.globals ∧
      s1.logOutput = freshRuntime.logOutput :=
  C1_post_exit_mutations_unobservable [Stmt.setGlobal "SHOULD_NOT_EXIST"] 42
    freshRuntime 0 rfl rfl

/-- Claim C2: for every integer n in the representable range of i32,
invoking the exit primitive with n produces an ExitRequested outcome
carrying exactly n; the code is neither truncated, altered nor replaced
between the native call and the surfaced driver result. -/
theorem C2_exit_code_fidelity (n : Int)
    (h1 : -(2 ^ 31) ≤ n) (h2 : n < 2 ^ 31) :
    ∃ s1, driver_run 2 [Stmt.exitCall (some n)] freshRuntime =
      some (Outcome.exitRequested n, s1) := by
  refine ⟨freshRuntime, ?_⟩
  simp [driver_run, execStmts, deno_exit, op_script_exit, handleAbort,
    freshRuntime]

/-- Witness for C2: exit code 42 on a fresh runtime. -/
theorem C2_witness :
    ∃ s1, driver_run 2 [Stmt.exitCall (some 42)] freshRuntime =
      some (Outcome.exitRequested 42, s1) :=
  C2_exit_code_fidelity 42 (by norm_num) (by norm_num)

/-- Claim C4: for every invocation of the native exit function with a
well-typed integer argument (the isolate handle being present, as the data
model guarantees for the lifetime of the instance), no error is ever
signalled back to script and termination is unconditional: the call records
the exit code, signals the engine interrupt and returns Ok. -/
theorem C4_exit_unconditional (s : ExecState) (n : Int)
    (hh : s.hasIsolateHandle = true) :
    (op_script_exit n s).1 = Except.ok () ∧
    (op_script_exit n s).2.exitRequest = some { code := n } ∧
    (op_script_exit n s).2.terminated = true := by
  simp [op_script_exit, hh]

/-- Witness for C4: exit code 7 on a fresh runtime. -/
theorem C4_witness :
    (op_script_exit 7 freshRuntime).1 = Except.ok () ∧
    (op_script_exit 7 freshRuntime).2.exitRequest = some { code := 7 } ∧
    (op_script_exit 7 freshRuntime).2.terminated = true :=
  C4_exit_unconditional freshRuntime 7 rfl

/-- Claim C8: in every invocation of the native exit function with the
isolate handle present, the exit request record is written into the
side-state store strictly before the terminate-now signal is invoked: the
effect trace is exactly the record write followed by the terminate signal,
and folding that trace over the state reproduces the op result. -/
theorem C8_record_before_signal (s : ExecState) (n : Int)
    (hh : s.hasIsolateHandle = true) :
    op_script_exit_events s n =
      [ExitEffect.putExitRequest n, ExitEffect.terminateSignal] ∧
    (op_script_exit n s).2 =
      (op_script_exit_events s n).foldl applyExitEffect s := by
  constructor
  · simp [op_script_exit_events, hh]
  · simp [op_script_exit_events, hh, applyExitEffect, op_script_exit]

/-- Witness for C8: exit code 3 on a fresh runtime. -/
theorem C8_witness :
    op_script_exit_events freshRuntime 3 =
      [ExitEffect.putExitRequest 3, ExitEffect.terminateSignal] ∧
    (op_script_exit 3 freshRuntime).2 =
      (op_script_exit_events freshRuntime 3).foldl applyExitEffect
        freshRuntime :=
  C8_record_before_signal freshRuntime 3 rfl

/-- Claim C9: invoking the exit primitive with no argument behaves as if
invoked with 0: the execution entry point yields ExitRequested(0). -/
theorem C9_default_argument :
    ∃ s1, driver_run 2 [Stmt.exitCall none] freshRuntime =
      some (Outcome.exitRequested 0, s1) :=
  ⟨freshRuntime, by decide⟩

/-- Claim C5: for every script running an unbounded loop that calls the
exit primitive after a finite number of iterations, the execution entry
point terminates and produces ExitRequested with the given code within a
bounded number of interpreter steps: 3*bound + 5 steps suffice, and any
larger step budget gives the same outcome (the run never hangs). -/
theorem C5_loop_interruption (bound : Nat) (c : Int) (fuel : Nat)
    (hf : 3 * bound + 5 ≤ fuel) :
    ∃ s1, driver_run fuel (loopExitScript bound c) freshRuntime =
      some (Outcome.exitRequested c, s1) := by
  obtain ⟨s1, hexec, hreq⟩ :=
    loop_exit_aborts bound c bound freshRuntime [] rfl rfl
      (by simp [freshRuntime])
  have hexec2 := execStmts_mono _ fuel _ _ _ hf hexec
  refine ⟨(handleAbort s1).2, ?_⟩
  simp only [driver_run, loopExitScript]
  rw [hexec2]
  simp [handleAbort, hreq]

/-- Witness for C5: the loop exits with code 99 after passing bound 2,
within 11 interpreter steps. -/
theorem C5_witness :
    ∃ s1, driver_run 11 (loopExitScript 2 99) freshRuntime =
      some (Outcome.exitRequested 99, s1) :=
  C5_loop_interruption 2 99 11 (by norm_num)

/-- Claim C6: whenever the engine reports an aborted execution, the driver
takes the exit request record from the side-state store: the driver result
on an aborted run is exactly the abort classification, the classification
surfaces ExitRequested with the recorded code when the record is present
and UnrelatedAbort when it is absent, and in either case the record slot is
empty afterwards, so no pending record survives into the next execution. -/
theorem C6_abort_classification :
    (∀ (fuel : Nat) (prog : List Stmt) (s s1 : ExecState),
      execStmts fuel prog s = some (ExecResult.aborted s1) →
      driver_run fuel prog s = some (handleAbort s1)) ∧
    (∀ s : ExecState,
      (handleAbort s).2.exitRequest = none ∧
      (∀ req, s.exitRequest = some req →
        (handleAbort s).1 = Outcome.exitRequested req.code) ∧
      (s.exitRequest = none →
        (handleAbort s).1 = Outcome.unrelatedAbort)) := by
  constructor
  · intro fuel prog s s1 h
    simp [driver_run, h]
  · intro s
    refine ⟨?_, ?_, ?_⟩
    · cases hreq : s.exitRequest <;> simp [handleAbort, hreq]
    · intro req hreq
      simp [handleAbort, hreq]
    · intro hreq
      simp [handleAbort, hreq]

/-- Witness for C6: an aborted run with exit code 7 recorded, one with the
record present, and one with it absent. -/
theorem C6_witness :
    driver_run 2 [Stmt.exitCall (some 7)] freshRuntime =
      some (handleAbort { freshRuntime with
        exitRequest := some { code := 7 }, terminated := true }) ∧
    (handleAbort { freshRuntime with
      exitRequest := some { code := 7 } }).2.exitRequest = none ∧
    (handleAbort { freshRuntime with
      exitRequest := some { code := 7 } }).1 = Outcome.exitRequested 7 ∧
    (handleAbort freshRuntime).1 = Outcome.unrelatedAbort :=
  ⟨C6_abort_classification.1 2 [Stmt.exitCall (some 7)] freshRuntime _
      (by decide),
   (C6_abort_classification.2 _).1,
   (C6_abort_classification.2 _).2.1 { code := 7 } rfl,
   (C6_abort_classification.2 freshRuntime).2.2 rfl⟩

/-- Claim C10: if no V8IsolateHandle is present in the runtime OpState when
op_script_exit is called, the op still stores the ScriptExitRequest and
returns Ok without signalling any engine termination, so script execution
continues past the exit call (a later global mutation is observable and the
run completes normally) with a stale pending exit record left in the
store. -/
theorem C10_no_handle (s : ExecState) (n : Int) (fuel : Nat) (g : String)
    (hh : s.hasIsolateHandle = false) (ht : s.terminated = false) :
    (op_script_exit n s).1 = Except.ok () ∧
    (op_script_exit n s).2.exitRequest = some { code := n } ∧
    (op_script_exit n s).2.terminated = false ∧
    ∃ s1, driver_run (fuel + 2)
          [Stmt.exitCall (some n), Stmt.setGlobal g] s =
        some (Outcome.normal, s1) ∧
      s1.globals = g :: s.globals ∧
      s1.exitRequest = some { code := n } := by
  refine ⟨?_, ?_, ?_, ?_⟩
  · simp [op_script_exit, hh]
  · simp [op_script_exit, hh]
  · simp [op_script_exit, hh, ht]
  · have ht2 : ((deno_exit (some n) s).2).terminated = false := by
      rw [deno_exit_state]; simp [ht, hh]
    refine ⟨{ (deno_exit (some n) s).2 with
        globals := g :: ((deno_exit (some n) s).2).globals }, ?_, ?_, ?_⟩
    · rw [show fuel + 2 = fuel + 1 + 1 by ring]
      simp only [driver_run]
      rw [execStmts_exit_step _ _ _ _ ht, execStmts_set_step _ _ _ _ ht2,
        execStmts_nil _ _ (by simp [ht2])]
    · simp [deno_exit_state]
    · simp [deno_exit_state]

/-- Witness for C10: exit code 5 with no isolate handle stored; the
subsequent global mutation is observable and the record is stale. -/
theorem C10_witness :
    (op_script_exit 5 { freshRuntime with hasIsolateHandle := false }).1 =
      Except.ok () ∧
    (op_script_exit 5 { freshRuntime with
      hasIsolateHandle := false }).2.exitRequest = some { code := 5 } ∧
    (op_script_exit 5 { freshRuntime with
      hasIsolateHandle := false }).2.terminated = false ∧
    ∃ s1, driver_run 2 [Stmt.exitCall (some 5), Stmt.setGlobal "g"]
          { freshRuntime with hasIsolateHandle := false } =
        some (Outcome.normal, s1) ∧
      s1.globals =
        "g" :: ({ freshRuntime with hasIsolateHandle := false } :
          ExecState).globals ∧
      s1.exitRequest = some { code := 5 } :=
  C10_no_handle { freshRuntime with hasIsolateHandle := false } 5 0 "g"
    rfl rfl

/-- Claim C3: after any execution that returns an ExitRequested outcome,
the same runtime instance remains valid (no stale record, not terminated,
handle still stored), and after any number of aborted executions in
sequence from a fresh runtime, a subsequent independent script unit
executes and returns its correct normal result. -/
theorem C3_runtime_reuse :
    (∀ (fuel : Nat) (prog : List Stmt) (s : ExecState) (c : Int)
        (out : Outcome × ExecState),
      runtimeValid s → driver_run fuel prog s = some out →
      out.1 = Outcome.exitRequested c → runtimeValid out.2) ∧
    (∀ (k : Nat) (msg : String),
      ∃ s1, driver_run 1 [Stmt.log msg] (iterAborts k freshRuntime) =
          some (Outcome.normal, s1) ∧
        s1.logOutput = msg :: (iterAborts k freshRuntime).logOutput) := by
  constructor
  · intro fuel prog s c out hv hrun hout
    obtain ⟨hv1, hv2, hv3⟩ := hv
    simp only [driver_run] at hrun
    cases hexec : execStmts fuel prog s with
    | none => rw [hexec] at hrun; simp at hrun
    | some r =>
        rw [hexec] at hrun
        cases r with
        | ok s2 =>
            simp only [Option.some.injEq] at hrun
            rw [← hrun] at hout
            simp at hout
        | thrown m s2 =>
            simp only [Option.some.injEq] at hrun
            rw [← hrun] at hout
            simp at hout
        | aborted s2 =>
            simp only [Option.some.injEq] at hrun
            have hh2 := execStmts_handle fuel prog s _ hexec
            simp only [ExecResult.state] at hh2
            rw [← hrun] at hout ⊢
            cases hreq2 : s2.exitRequest with
            | some req =>
                simp [handleAbort, hreq2, runtimeValid, hh2, hv3]
            | none => simp [handleAbort, hreq2] at hout
  · intro k msg
    rw [iterAborts_fresh k]
    refine ⟨{ freshRuntime with logOutput := [msg] }, ?_, ?_⟩
    · rw [show (1 : Nat) = 0 + 1 by norm_num]
      simp only [driver_run]
      rw [execStmts_log_step _ _ _ _ rfl, execStmts_nil _ _ rfl]
      rfl
    · rfl

/-- Witness for C3: one aborted execution preserves validity, and after
three aborted executions on the same fresh runtime an evaluation still
returns its normal result. -/
theorem C3_witness :
    runtimeValid (Outcome.exitRequested 1, freshRuntime).2 ∧
    ∃ s1, driver_run 1 [Stmt.log "still alive"]
          (iterAborts 3 freshRuntime) =
        some (Outcome.normal, s1) ∧
      s1.logOutput = "still alive" :: (iterAborts 3 freshRuntime).logOutput :=
  ⟨C3_runtime_reuse.1 2 [Stmt.exitCall (some 1)] freshRuntime 1
      (Outcome.exitRequested 1, freshRuntime) ⟨rfl, rfl, rfl⟩ (by decide) rfl,
   C3_runtime_reuse.2 3 "still alive"⟩

/-- Claim C7: outcome classification is never conflated.  On a run started
with no pending record and the isolate handle present: a script containing
no exit call never surfaces as ExitRequested; a run surfaced as an
OrdinaryScriptFailure never executed the exit primitive (its record slot is
still empty, since every executed exit call records a request that nothing
clears during the run); and a script that calls the exit primitive at its
head never surfaces as an OrdinaryScriptFailure. -/
theorem C7_non_conflation (fuel : Nat) (prog : List Stmt) (s : ExecState)
    (out : Outcome) (s1 : ExecState)
    (hreq : s.exitRequest = none) (hh : s.hasIsolateHandle = true)
    (hrun : driver_run fuel prog s = some (out, s1)) :
    (noExitCall prog = true → ∀ c, out ≠ Outcome.exitRequested c) ∧
    (∀ msg, out = Outcome.ordinaryFailure msg → s1.exitRequest = none) ∧
    (∀ (arg : Option Int) (post : List Stmt),
      prog = Stmt.exitCall arg :: post → s.terminated = false →
      ∀ msg, out ≠ Outcome.ordinaryFailure msg) := by
  simp only [driver_run] at hrun
  cases hexec : execStmts fuel prog s with
  | none => rw [hexec] at hrun; simp at hrun
  | some r =>
      rw [hexec] at hrun
      cases r with
      | ok s2 =>
          simp only [Option.some.injEq, Prod.mk.injEq] at hrun
          obtain ⟨hout, hs1⟩ := hrun
          refine ⟨?_, ?_, ?_⟩
          · intro _ c
            rw [← hout]
            simp
          · intro msg hmsg
            rw [← hout] at hmsg
            simp at hmsg
          · intro arg post hp ht msg
            rw [← hout]
            simp
      | thrown m s2 =>
          simp only [Option.some.injEq, Prod.mk.injEq] at hrun
          obtain ⟨hout, hs1⟩ := hrun
          refine ⟨?_, ?_, ?_⟩
          · intro _ c
            rw [← hout]
            simp
          · intro msg hmsg
            have h5 := execStmts_thrown_no_exit fuel prog s m s2 hh hexec
            rw [← hs1, h5.1, hreq]
          · intro arg post hp ht msg hmsg
            subst hp
            have h6 := execStmts_exit_head fuel arg post s _ ht hh hexec
            simp at h6
      | aborted s2 =>
          simp only [Option.some.injEq] at hrun
          have hout : (handleAbort s2).1 = out := by rw [hrun]
          refine ⟨?_, ?_, ?_⟩
          · intro hne c
            have h5 := execStmts_noExit fuel prog s _ hne hexec
            simp only [ExecResult.state] at h5
            rw [hreq] at h5
            rw [← hout]
            simp [handleAbort, h5]
          · intro msg hmsg
            rw [← hout] at hmsg
            cases hreq2 : s2.exitRequest <;> simp [handleAbort, hreq2] at hmsg
          · intro arg post hp ht msg hmsg
            rw [← hout] at hmsg
            cases hreq2 : s2.exitRequest <;> simp [handleAbort, hreq2] at hmsg

/-- Witness for C7: a script that throws with no exit call surfaces as an
ordinary failure, never as ExitRequested, with no record left behind. -/
theorem C7_witness :
    (noExitCall [Stmt.throwErr "boom"] = true →
      ∀ c, Outcome.ordinaryFailure "boom" ≠ Outcome.exitRequested c) ∧
    (∀ msg, Outcome.ordinaryFailure "boom" = Outcome.ordinaryFailure msg →
      freshRuntime.exitRequest = none) ∧
    (∀ (arg : Option Int) (post : List Stmt),
      [Stmt.throwErr "boom"] = Stmt.exitCall arg :: post →
      freshRuntime.terminated = false →
      ∀ msg, Outcome.ordinaryFailure "boom" ≠ Outcome.ordinaryFailure msg) :=
  C7_non_conflation 1 [Stmt.throwErr "boom"] freshRuntime
    (Outcome.ordinaryFailure "boom") freshRuntime rfl rfl (by decide)
